import Mathlib

/-!
Verification of the krot key-rotation library.

This file is a shallow embedding, in Lean, of the core of the krot Go
package: the Key data type and the map-based reference storage
(key.go, storage.go), the condition-variable key cleaner (the
expiration scheduler), the KeyIDProvider selection algorithm and the
Rotator orchestration (rotator source file).

Modelling conventions:
* absolute times and durations are integers (Go time.Time / Duration);
* the Go map inside inMemoryStorage is an association list with at most
  one entry per key, updated with replace-or-append (upsert) semantics;
* randomness (crypto/rand key ids, the generator output, math/rand draws)
  is passed in as explicit inputs: a math/rand Intn(n) draw is modelled as
  r % n for an arbitrary input r : Nat, which ranges over exactly the
  values Intn can return;
* a Go slice indexing operation that can actually go out of bounds is
  modelled with List.get? and a distinguished panicked result; indexing
  operations whose bounds follow structurally from the surrounding guards
  are modelled with List.getD (the default is unreachable);
* background goroutines are modelled synchronously: the cleaner worker
  loop is a function that consumes the whole queue, producing the
  sequence of deletions together with the time at which each fires.
-/

namespace Krot

/-! ## Keys (key.go) -/

/-- Key from key.go. Go Value has type any; the generator produces byte
strings, modelled here as String. -/
structure Key where
  id : String
  value : String
  expires : Int
deriving DecidableEq

/-- Go: func (k *Key) Expired() bool \x7b return k.Expires.After(time.Now()) \x7d.
time.After is strict greater-than, so this is now < expires. -/
def Key.Expired (k : Key) (now : Int) : Bool :=
  now < k.expires

/-! ## Storage (storage.go, inMemoryStorage) -/

/-- The map keys of inMemoryStorage, as an association list with unique
keys. The stored *Key pointers are never nil here because Add skips nil
entries, so values are plain Keys. -/
abbrev Storage := List (String × Key)

/-- Go: s.keys[id] lookup in Get. -/
def Storage.get (st : Storage) (id : String) : Option Key :=
  (st.find? (fun kv => kv.fst == id)).map Prod.snd

/-- One iteration of inMemoryStorage.Add: skip the key when its ID or
value is empty (the nil-pointer case cannot arise in the model),
otherwise upsert s.keys[key.ID] = key. -/
def Storage.addOne (st : Storage) (k : Key) : Storage :=
  if k.id = "" ∨ k.value = "" then st
  else st.filter (fun kv => !(kv.fst == k.id)) ++ [(k.id, k)]

/-- Go: func (s *inMemoryStorage) Add(_ context.Context, keys ...*Key). -/
def Storage.add (st : Storage) (keys : List Key) : Storage :=
  keys.foldl Storage.addOne st

/-- Go: func (s *inMemoryStorage) Delete(_ context.Context, ids ...string);
deletes each listed id from the map. -/
def Storage.delete (st : Storage) (ids : List String) : Storage :=
  st.filter (fun kv => !(ids.contains kv.fst))

/-- Go: func (s *inMemoryStorage) ClearDeprecated: removes every entry
whose value is nil or for which value.Expired() is true (nil cannot
arise in the model). -/
def Storage.clearDeprecated (st : Storage) (now : Int) : Storage :=
  st.filter (fun kv => !(kv.snd.Expired now))

/-- Go: func (s *inMemoryStorage) Erase. -/
def Storage.erase (_ : Storage) : Storage := []

/-! ## Key cleaner (the expiration scheduler, condition-variable version) -/

/-- keyCleaner state: the append-ordered working lists of ids and
expirations. The context/mutex/cond fields coordinate goroutines and
have no synchronous state. -/
structure Cleaner where
  ids : List String
  expirations : List Int
deriving DecidableEq

/-- Go: func (c *keyCleaner) Add(id string, expiration time.Time).
If the expiration is already in the past the key is deleted from
storage immediately; otherwise the entry is appended to both lists
(the Signal call only wakes the worker). -/
def cleanerAdd (c : Cleaner) (st : Storage) (now : Int) (id : String)
    (expiration : Int) : Cleaner × Storage :=
  if expiration < now then (c, st.delete [id])
  else ({ ids := c.ids ++ [id], expirations := c.expirations ++ [expiration] }, st)

/-- The worker loop of keyCleaner.run, run to completion on the queue it
finds, without cancellation. At each step the head entry is inspected:
if its expiration is before the current instant it is deleted at once,
otherwise the worker sleeps until the expiration and deletes then; in
both cases the deletion fires at max now expiration. The log records
(id, scheduled expiration, instant the deletion fired) in deletion
order. The mismatched-length case is unreachable because Add extends
both lists in lockstep. -/
def cleanerRun (now : Int) : List String → List Int → Storage →
    List (String × Int × Int) × Storage
  | [], _, st => ([], st)
  | _ :: _, [], st => ([], st)
  | id :: ids, exp :: exps, st =>
    let fire := max now exp
    let st1 := st.delete [id]
    let rest := cleanerRun fire ids exps st1
    ((id, exp, fire) :: rest.fst, rest.snd)

/-! ## KeyIDProvider (the identifier selection algorithm) -/

inductive KeyProvidingMode
  | auto
  | random
  | nonRepeating
  | cyclic
  | nonRepeatingCyclic
deriving DecidableEq

/-- Result of KeyIDProvider.Get: the returned id, one of the two error
returns, or a Go runtime panic from an out-of-range slice index. -/
inductive GetResult
  | ok (id : String)
  | errNoKeysGenerated
  | errInvalidKeyProvidingMode
  | panicked
deriving DecidableEq

structure KeyIDProvider where
  mode : KeyProvidingMode
  ids : List String
  availableIndexes : List Nat
  lastSelectedIndex : Nat
  round : Nat
deriving DecidableEq

/-- Go: func (i *KeyIDProvider) reloadAvailableIndexes(). -/
def KeyIDProvider.reloadAvailableIndexes (p : KeyIDProvider) : KeyIDProvider :=
  { p with availableIndexes := List.range p.ids.length }

/-- Go: func (s *KeyIDProvider) Set(ids ...string): install the new id
list, rebuild availableIndexes, and if the mode is Auto resolve it from
the cardinality (1 id: Random; 2-5: NonRepeating; otherwise, including
the empty list, NonRepeatingCyclic). Neither round nor
lastSelectedIndex is touched. -/
def KeyIDProvider.set (p : KeyIDProvider) (ids : List String) : KeyIDProvider :=
  let q := { p with ids := ids, availableIndexes := List.range ids.length }
  match q.mode with
  | .auto =>
    { q with mode :=
        match ids.length with
        | 1 => .random
        | 2 | 3 | 4 | 5 => .nonRepeating
        | _ => .nonRepeatingCyclic }
  | _ => q

/-- Go: func NewKeyIDProvider(mode KeyProvidingMode, ids ...string). -/
def NewKeyIDProvider (mode : KeyProvidingMode) (ids : List String) : KeyIDProvider :=
  KeyIDProvider.set ⟨mode, [], [], 0, 0⟩ ids

/-- The NonRepeatingKeyProvidingMode branch of Get. Reached only with
len(ids) ≥ 2, so Intn(len-1) is legal and the final index is at most
len-1: the slice reads cannot fault, hence getD. -/
def KeyIDProvider.getNR (i : KeyIDProvider) (r : Nat) : GetResult × KeyIDProvider :=
  let idx0 := r % (i.ids.length - 1)
  let index := if i.lastSelectedIndex ≤ idx0 then idx0 + 1 else idx0
  (.ok (i.ids.getD index ""), { i with lastSelectedIndex := index })

/-- The CyclicKeyProvidingMode branch of Get: round wraps only on exact
equality with len(ids), and ids[round] is then read, which panics
whenever round exceeds the list (reachable after Set installs a shorter
list). -/
def KeyIDProvider.getCyclic (i : KeyIDProvider) : GetResult × KeyIDProvider :=
  let round := if i.round = i.ids.length then 0 else i.round
  match i.ids.get? round with
  | some id => (.ok id, { i with round := round + 1 })
  | none => (.panicked, i)

/-- The swap-removal of availableIndexes[index] performed at the end of
the NonRepeatingCyclic branch: avail[index] = avail[n-1];
avail[n-1] = chosen; truncate to n-1. -/
def swapRemove (l : List Nat) (index : Nat) : List Nat :=
  ((l.set index (l.getD (l.length - 1) 0)).set (l.length - 1) (l.getD index 0)).take
    (l.length - 1)

/-- The NonRepeatingCyclicKeyProvidingMode branch of Get. Reached only
with len(ids) ≥ 2, so the (possibly reloaded) pool is nonempty and
every pool read is in range (getD); the read ids[chosen] depends on the
pool contents staying below len(ids), so it is modelled with get? and
panicked. -/
def KeyIDProvider.getNRC (i : KeyIDProvider) (r : Nat) : GetResult × KeyIDProvider :=
  let avail := if i.availableIndexes.length = 0 then List.range i.ids.length
               else i.availableIndexes
  let index :=
    if 1 < avail.length then
      let idx0 := r % (avail.length - 1)
      if avail.getD idx0 0 = i.lastSelectedIndex then avail.length - 1 else idx0
    else 0
  let chosen := avail.getD index 0
  match i.ids.get? chosen with
  | some id =>
    (.ok id, { i with lastSelectedIndex := chosen,
                      availableIndexes := swapRemove avail index })
  | none => (.panicked, i)

/-- Go: func (i *KeyIDProvider) Get() (string, error), with the Intn
draw supplied as r. Empty set: ErrNoKeysGenerated; singleton: ids[0]
regardless of mode; otherwise dispatch on the mode, Auto falling into
the default error branch. -/
def KeyIDProvider.get (i : KeyIDProvider) (r : Nat) : GetResult × KeyIDProvider :=
  if i.ids.length = 0 then (.errNoKeysGenerated, i)
  else if i.ids.length = 1 then (.ok (i.ids.getD 0 ""), i)
  else
    match i.mode with
    | .auto => (.errInvalidKeyProvidingMode, i)
    | .random => (.ok (i.ids.getD (r % i.ids.length) ""), i)
    | .nonRepeating => i.getNR r
    | .cyclic => i.getCyclic
    | .nonRepeatingCyclic => i.getNRC r

/-- A sequence of Get calls, consuming one random draw per call. -/
def KeyIDProvider.getSeq (p : KeyIDProvider) : List Nat → List GetResult × KeyIDProvider
  | [] => ([], p)
  | r :: rs =>
    let step := p.get r
    let rest := step.snd.getSeq rs
    (step.fst :: rest.fst, rest.snd)

/-! ## Rotator settings and validation -/

inductive SettingsError
  | invalidRotationKeyCount
  | invalidRotationInterval
  | invalidKeyExpiration
  | invalidKeyProvidingMode
deriving DecidableEq

/-- RotatorSettings; KeyProvidingMode is a Go int, kept as Int so the
validation range check is meaningful. -/
structure RotatorSettings where
  rotationKeyCount : Int
  keyExpiration : Int
  rotationInterval : Int
  autoClearExpiredKeys : Bool
  keyProvidingMode : Int
deriving DecidableEq

/-- Go: func (s *RotatorSettings) Validate() error. -/
def RotatorSettings.validate (s : RotatorSettings) : Option SettingsError :=
  if s.rotationKeyCount < 1 then some .invalidRotationKeyCount
  else if s.rotationInterval < 0 then some .invalidRotationInterval
  else if s.keyExpiration < 0 then some .invalidKeyExpiration
  else if s.keyProvidingMode < 0 ∨ 4 < s.keyProvidingMode then
    some .invalidKeyProvidingMode
  else none

/-! ## Rotator -/

inductive RotatorState
  | idle
  | rotating
deriving DecidableEq

inductive RotatorStatus
  | stopped
  | started
deriving DecidableEq

inductive KrotError
  | rotatorAlreadyRunning
  | noKeysGenerated
  | keyNotFound
deriving DecidableEq

/-- Rotator hooks are modelled by opaque labels; RotatorHooks.Run
invokes the slice front to back, so the invocation order is the list
itself. -/
def RotatorHooks.run (hooks : List Nat) : List Nat := hooks

structure Rotator where
  id : String
  settings : RotatorSettings
  state : RotatorState
  status : RotatorStatus
  storage : Storage
  cleaner : Cleaner
  idProvider : KeyIDProvider
  onStartHooks : List Nat
  onStopHooks : List Nat
  hooksBeforeRotation : List Nat
  hooksAfterRotation : List Nat

/-- A freshly constructed Rotator (New / NewWithSettings with the given
settings): empty storage and cleaner, zero-valued KeyIDProvider (mode
Auto), stopped, no hooks. The settings KeyProvidingMode field is never
copied into the provider by the Go code. -/
def Rotator.new (rid : String) (s : RotatorSettings) : Rotator :=
  { id := rid
    settings := s
    state := .idle
    status := .stopped
    storage := []
    cleaner := ⟨[], []⟩
    idProvider := ⟨.auto, [], [], 0, 0⟩
    onStartHooks := []
    onStopHooks := []
    hooksBeforeRotation := []
    hooksAfterRotation := [] }

/-- Go: func (r *Rotator) OnStart(hooks ...RotatorHook): append. -/
def Rotator.onStart (r : Rotator) (hooks : List Nat) : Rotator :=
  { r with onStartHooks := r.onStartHooks ++ hooks }

/-- Go: func (r *Rotator) OnStop(hooks ...RotatorHook): append. -/
def Rotator.onStop (r : Rotator) (hooks : List Nat) : Rotator :=
  { r with onStopHooks := r.onStopHooks ++ hooks }

/-- Go: func (r *Rotator) BeforeRotation(hooks ...RotatorHook):
r.hooksBeforeRotation = append(hooks, r.hooksBeforeRotation...), i.e.
the new hooks are placed in front of the existing ones. -/
def Rotator.beforeRotation (r : Rotator) (hooks : List Nat) : Rotator :=
  { r with hooksBeforeRotation := hooks ++ r.hooksBeforeRotation }

/-- Go: func (r *Rotator) AfterRotation(hooks ...RotatorHook): append. -/
def Rotator.afterRotation (r : Rotator) (hooks : List Nat) : Rotator :=
  { r with hooksAfterRotation := r.hooksAfterRotation ++ hooks }

/-- The lowercase hex rendering of one byte, as produced by the %x verb. -/
def hexDigitChar (n : Nat) : Char :=
  if n < 10 then Char.ofNat (48 + n) else Char.ofNat (87 + n)

def hexByte (b : Nat) : String :=
  String.mk [hexDigitChar ((b % 256) / 16), hexDigitChar ((b % 256) % 16)]

/-- fmt %x of a byte slice: two lowercase hex digits per byte. -/
def hexString (bs : List Nat) : String :=
  String.join (bs.map hexByte)

/-- Go string(keyID): the raw bytes of the slice as a string. -/
def rawString (bs : List Nat) : String :=
  String.mk (bs.map (fun b => Char.ofNat (b % 256)))

/-- The batch of keys built inside Rotate: for each drawn byte string
and generated value, ID = fmt.Sprintf("%s:%x", r.id, keyID), the
generated value, and Expires = now + RotationInterval + KeyExpiration. -/
def batchKeys (rid : String) (expiration : Int) (inputs : List (List Nat × String)) :
    List Key :=
  inputs.map (fun inp => ⟨rid ++ ":" ++ hexString inp.fst, inp.snd, expiration⟩)

/-- Go: func (r *Rotator) Rotate() error, on the successful path, with
the per-key randomness and generator outputs supplied as inputs (one
pair per key, RotationKeyCount of them). Per iteration the cleaner is
handed (string(keyID), expiration) — note: the raw bytes, not the
stored ID — then the whole batch is stored in one Add call and the
provider is given exactly the batch ids. Hooks run around the body and
do not touch this state. -/
def Rotator.rotate (r : Rotator) (now : Int) (inputs : List (List Nat × String)) :
    Rotator :=
  let batch := inputs.take r.settings.rotationKeyCount.toNat
  let expiration := now + r.settings.rotationInterval + r.settings.keyExpiration
  let swept := batch.foldl
    (fun acc inp => cleanerAdd acc.fst acc.snd now (rawString inp.fst) expiration)
    (r.cleaner, r.storage)
  let keys := batchKeys r.id expiration batch
  { r with
    cleaner := swept.fst
    storage := Storage.add swept.snd keys
    idProvider := r.idProvider.set (keys.map Key.id)
    state := .idle }

/-- Go: func (r *Rotator) Start() error: refuse when already started
(before any other effect), otherwise launch the cleaner worker (a
goroutine, no synchronous state change), perform one synchronous
Rotate, and flip the status to started. -/
def Rotator.start (r : Rotator) (now : Int) (inputs : List (List Nat × String)) :
    Option KrotError × Rotator :=
  if r.status = .started then (some .rotatorAlreadyRunning, r)
  else
    let r1 := r.rotate now inputs
    (none, { r1 with status := .started })

/-- Go: func (r *Rotator) GetKey() (*Key, error): draw an id from the
provider, then read it from storage; none stands for any error return. -/
def Rotator.getKey (r : Rotator) (rand : Nat) : Option Key × Rotator :=
  let drawn := r.idProvider.get rand
  let r1 := { r with idProvider := drawn.snd }
  match drawn.fst with
  | .ok id =>
    match r1.storage.get id with
    | some k => (some k, r1)
    | none => (none, r1)
  | _ => (none, r1)

/-! ## Helper lemmas -/

theorem getD_get (l : List String) (n : Nat) (d : String) (h : n < l.length) :
    l.getD n d = l.get ⟨n, h⟩ := by
  simp [List.getD_eq_getElem?_getD, List.getElem?_eq_getElem h, List.get_eq_getElem]

theorem getD_get_nat (l : List Nat) (n : Nat) (d : Nat) (h : n < l.length) :
    l.getD n d = l.get ⟨n, h⟩ := by
  simp [List.getD_eq_getElem?_getD, List.getElem?_eq_getElem h, List.get_eq_getElem]

theorem take_set_of_le (l : List Nat) (i k : Nat) (a : Nat) (h : k ≤ i) :
    (l.set i a).take k = l.take k := by
  rw [List.set_take]
  exact List.set_eq_of_length_le (le_trans (by simp) h)

theorem swapRemove_length (l : List Nat) (i : Nat) (h : l ≠ []) :
    (swapRemove l i).length = l.length - 1 := by
  have h0 : 0 < l.length := List.length_pos.mpr h
  simp [swapRemove]

theorem perm_last_cons_dropLast :
    ∀ (l : List Nat), l ≠ [] → l.Perm (l.getD (l.length - 1) 0 :: l.dropLast)
  | [], h => absurd rfl h
  | [a], _ => by simp
  | a :: b :: t, _ => by
    have ih := perm_last_cons_dropLast (b :: t) (by simp)
    have h1 : (a :: b :: t).getD ((a :: b :: t).length - 1) 0 =
        (b :: t).getD ((b :: t).length - 1) 0 := by
      simp [List.getD_cons_succ]
    rw [h1, List.dropLast_cons₂]
    exact (ih.cons a).trans (List.Perm.swap _ _ _)

theorem swapRemove_cons_succ (a : Nat) (l : List Nat) (i : Nat) (h : l ≠ []) :
    swapRemove (a :: l) (i + 1) = a :: swapRemove l i := by
  obtain ⟨b, t, rfl⟩ : ∃ b t, l = b :: t := by
    cases l with
    | nil => exact absurd rfl h
    | cons b t => exact ⟨b, t, rfl⟩
  simp only [swapRemove, List.length_cons, Nat.add_sub_cancel, List.getD_cons_succ,
    List.set_cons_succ]
  rw [List.take_cons (by omega)]
  simp

theorem swapRemove_cons_zero (a : Nat) (l : List Nat) (h : l ≠ []) :
    swapRemove (a :: l) 0 = l.getD (l.length - 1) 0 :: l.dropLast := by
  obtain ⟨b, t, rfl⟩ : ∃ b t, l = b :: t := by
    cases l with
    | nil => exact absurd rfl h
    | cons b t => exact ⟨b, t, rfl⟩
  simp only [swapRemove, List.length_cons, Nat.add_sub_cancel, List.getD_cons_succ,
    List.getD_cons_zero, List.set_cons_zero, List.set_cons_succ]
  rw [List.take_cons (by omega)]
  simp only [Nat.add_sub_cancel]
  rw [take_set_of_le (b :: t) t.length t.length a (le_refl t.length),
    List.dropLast_eq_take]
  simp

theorem perm_swapRemove :
    ∀ (i : Nat) (l : List Nat), i < l.length → l.Perm (l.getD i 0 :: swapRemove l i)
  | 0, [], h => by simp at h
  | 0, [a], _ => by simp [swapRemove]
  | 0, a :: b :: t, _ => by
    rw [swapRemove_cons_zero a (b :: t) (by simp), List.getD_cons_zero]
    exact (perm_last_cons_dropLast (b :: t) (by simp)).cons a
  | i + 1, [], h => by simp at h
  | i + 1, a :: l, h => by
    have hi : i < l.length := by simpa using h
    have hne : l ≠ [] := by intro hl; rw [hl] at hi; simp at hi
    rw [swapRemove_cons_succ a l i hne, List.getD_cons_succ]
    exact ((perm_swapRemove i l hi).cons a).trans (List.Perm.swap _ _ _)

theorem map_getD_range :
    ∀ (l : List String), (List.range l.length).map (fun i => l.getD i "") = l
  | [] => by simp
  | a :: l => by
    rw [List.length_cons, List.range_succ_eq_map]
    simp only [List.map_cons, List.getD_cons_zero, List.map_map]
    have : (fun i => (a :: l).getD i "") ∘ Nat.succ = fun i => l.getD i "" := by
      funext i
      simp [List.getD_cons_succ]
    rw [this, map_getD_range l]

theorem foldl_onStart_hooks (bs : List (List Nat)) (r : Rotator) :
    (bs.foldl Rotator.onStart r).onStartHooks = r.onStartHooks ++ bs.flatten := by
  induction bs generalizing r with
  | nil => simp
  | cons b bs ih => simp [Rotator.onStart, ih]

theorem foldl_onStop_hooks (bs : List (List Nat)) (r : Rotator) :
    (bs.foldl Rotator.onStop r).onStopHooks = r.onStopHooks ++ bs.flatten := by
  induction bs generalizing r with
  | nil => simp
  | cons b bs ih => simp [Rotator.onStop, ih]

theorem foldl_afterRotation_hooks (bs : List (List Nat)) (r : Rotator) :
    (bs.foldl Rotator.afterRotation r).hooksAfterRotation =
      r.hooksAfterRotation ++ bs.flatten := by
  induction bs generalizing r with
  | nil => simp
  | cons b bs ih => simp [Rotator.afterRotation, ih]

theorem foldl_beforeRotation_hooks (bs : List (List Nat)) (r : Rotator) :
    (bs.foldl Rotator.beforeRotation r).hooksBeforeRotation =
      bs.reverse.flatten ++ r.hooksBeforeRotation := by
  induction bs generalizing r with
  | nil => simp
  | cons b bs ih => simp [Rotator.beforeRotation, ih]

theorem cleanerRun_log_exps :
    ∀ (ids : List String) (exps : List Int) (now : Int) (st : Storage),
      (cleanerRun now ids exps st).fst.map (fun e => e.snd.fst) =
        exps.take ids.length
  | [], _, _, _ => by simp [cleanerRun]
  | _ :: _, [], _, _ => by simp [cleanerRun]
  | i :: ids, e :: exps, now, st => by
    simp only [cleanerRun, List.map_cons, List.length_cons]
    rw [cleanerRun_log_exps ids exps (max now e) (Storage.delete st [i])]
    rw [List.take_cons (Nat.succ_pos _)]
    simp

theorem cleanerRun_fire_eq :
    ∀ (ids : List String) (exps : List Int) (now : Int) (st : Storage),
      List.Sorted (· ≤ ·) exps → (∀ e ∈ exps, now ≤ e) →
      ∀ e ∈ (cleanerRun now ids exps st).fst, e.snd.snd = e.snd.fst
  | [], _, _, _, _, _ => by simp [cleanerRun]
  | _ :: _, [], _, _, _, _ => by simp [cleanerRun]
  | i :: ids, e :: exps, now, st, hs, hf => by
    simp only [cleanerRun, List.mem_cons]
    rintro x (rfl | hx)
    · exact max_eq_right (hf e (by simp))
    · have hs1 := List.sorted_cons.mp hs
      refine cleanerRun_fire_eq ids exps (max now e) (Storage.delete st [i])
        hs1.2 (fun y hy => ?_) x hx
      rw [max_eq_right (hf e (by simp))]
      exact hs1.1 y hy

theorem find?_filter_of_imp (l : Storage) (p q : String × Key → Bool)
    (h : ∀ x, p x = true → q x = true) :
    (l.filter q).find? p = l.find? p := by
  induction l with
  | nil => rfl
  | cons a l ih =>
    by_cases hq : q a
    · rw [List.filter_cons_of_pos hq]
      by_cases hp : p a
      · rw [List.find?_cons_of_pos _ hp, List.find?_cons_of_pos _ hp]
      · rw [List.find?_cons_of_neg _ hp, List.find?_cons_of_neg _ hp, ih]
    · have hp : ¬ p a = true := fun hpa => hq (h a hpa)
      rw [List.filter_cons_of_neg hq, ih, List.find?_cons_of_neg _ hp]

theorem get_addOne_self (st : Storage) (k : Key) (hid : k.id ≠ "") (hv : k.value ≠ "") :
    (st.addOne k).get k.id = some k := by
  unfold Storage.addOne Storage.get
  rw [if_neg (by simp [hid, hv])]
  rw [List.find?_append]
  have h1 : (st.filter (fun kv => !(kv.fst == k.id))).find?
      (fun kv => kv.fst == k.id) = none := by
    rw [List.find?_eq_none]
    intro x hx
    have := (List.mem_filter.mp hx).2
    simpa using this
  rw [h1]
  simp

theorem get_addOne_ne (st : Storage) (k : Key) (id : String) (hne : id ≠ k.id) :
    (st.addOne k).get id = st.get id := by
  unfold Storage.addOne Storage.get
  by_cases hskip : k.id = "" ∨ k.value = ""
  · rw [if_pos hskip]
  · rw [if_neg hskip, List.find?_append]
    rw [find?_filter_of_imp st (fun kv => kv.fst == id) (fun kv => !(kv.fst == k.id))
      (by intro x hx; simp at hx ⊢; rw [hx]; exact hne)]
    have h2 : ([(k.id, k)] : Storage).find? (fun kv => kv.fst == id) = none := by
      simp [List.find?_cons, Ne.symm hne]
    cases hfind : st.find? (fun kv => kv.fst == id) with
    | none => simp [hfind, h2]
    | some v => simp [hfind]

theorem get_add_not_mem (st : Storage) (keys : List Key) (id : String)
    (h : id ∉ keys.map Key.id) :
    (st.add keys).get id = st.get id := by
  induction keys generalizing st with
  | nil => rfl
  | cons k ks ih =>
    simp only [List.map_cons, List.mem_cons, not_or] at h
    exact (ih (st.addOne k) (by simpa using h.2)).trans (get_addOne_ne st k id h.1)

theorem get_add_mem (st : Storage) (keys : List Key) (id : String)
    (hmem : id ∈ keys.map Key.id)
    (hvalid : ∀ k ∈ keys, k.id ≠ "" ∧ k.value ≠ "") :
    ∃ k, k ∈ keys ∧ (st.add keys).get id = some k := by
  induction keys generalizing st with
  | nil => simp at hmem
  | cons k ks ih =>
    by_cases hks : id ∈ ks.map Key.id
    · obtain ⟨k1, hk1, hg⟩ := ih (st.addOne k) hks
        (fun x hx => hvalid x (List.mem_cons_of_mem k hx))
      exact ⟨k1, List.mem_cons_of_mem k hk1, hg⟩
    · have hid : id = k.id := by
        simp only [List.map_cons, List.mem_cons] at hmem
        tauto
      subst hid
      have hvk := hvalid k (List.mem_cons_self k ks)
      refine ⟨k, List.mem_cons_self k ks, ?_⟩
      have hstep : (st.add (k :: ks)) = ((st.addOne k).add ks) := rfl
      rw [hstep, get_add_not_mem (st.addOne k) ks k.id hks,
        get_addOne_self st k hvk.1 hvk.2]

theorem validate_facts (s : RotatorSettings) (hv : s.validate = none) :
    1 ≤ s.rotationKeyCount ∧ 0 ≤ s.rotationInterval ∧ 0 ≤ s.keyExpiration := by
  unfold RotatorSettings.validate at hv
  split_ifs at hv with h1 h2 h3 h4
  exact ⟨by omega, by omega, by omega⟩

theorem append_colon_ne_empty (rid h : String) : rid ++ ":" ++ h ≠ "" := by
  intro heq
  have hlen := congrArg String.length heq
  rw [String.length_append, String.length_append] at hlen
  have h1 : (":" : String).length = 1 := rfl
  have h2 : ("" : String).length = 0 := rfl
  omega

theorem get_eq_branch (p : KeyIDProvider) (r : Nat) (h2 : 2 ≤ p.ids.length) :
    p.get r =
      match p.mode with
      | .auto => (.errInvalidKeyProvidingMode, p)
      | .random => (.ok (p.ids.getD (r % p.ids.length) ""), p)
      | .nonRepeating => p.getNR r
      | .cyclic => p.getCyclic
      | .nonRepeatingCyclic => p.getNRC r := by
  have h0 : ¬ p.ids.length = 0 := by omega
  have h1 : ¬ p.ids.length = 1 := by omega
  unfold KeyIDProvider.get
  rw [if_neg h0, if_neg h1]

theorem get_singleton (p : KeyIDProvider) (x : String) (r : Nat) (h : p.ids = [x]) :
    p.get r = (.ok x, p) := by
  unfold KeyIDProvider.get
  simp [h]

theorem getNR_spec (p : KeyIDProvider) (r : Nat) (h2 : 2 ≤ p.ids.length) :
    ∃ j : Nat, j < p.ids.length ∧ j ≠ p.lastSelectedIndex ∧
      p.getNR r = (.ok (p.ids.getD j ""), { p with lastSelectedIndex := j }) := by
  have hidx : r % (p.ids.length - 1) < p.ids.length - 1 :=
    Nat.mod_lt _ (by omega)
  simp only [KeyIDProvider.getNR]
  by_cases hc : p.lastSelectedIndex ≤ r % (p.ids.length - 1)
  · exact ⟨r % (p.ids.length - 1) + 1, by omega, by omega, by rw [if_pos hc]⟩
  · exact ⟨r % (p.ids.length - 1), by omega, by omega, by rw [if_neg hc]⟩

theorem get_nrc_step (p : KeyIDProvider) (r : Nat)
    (hm : p.mode = .nonRepeatingCyclic) (h2 : 2 ≤ p.ids.length)
    (hav : p.availableIndexes ≠ [])
    (hb : ∀ j ∈ p.availableIndexes, j < p.ids.length) :
    ∃ index, index < p.availableIndexes.length ∧
      p.get r = (.ok (p.ids.getD (p.availableIndexes.getD index 0) ""),
        { p with lastSelectedIndex := p.availableIndexes.getD index 0,
                 availableIndexes := swapRemove p.availableIndexes index }) := by
  obtain ⟨m, ids0, av, last, rd⟩ := p
  obtain rfl : m = KeyProvidingMode.nonRepeatingCyclic := hm
  have h2' : 2 ≤ ids0.length := h2
  have hav' : av ≠ [] := hav
  have hb' : ∀ j ∈ av, j < ids0.length := hb
  have hlen0 : ¬ av.length = 0 := by
    simpa [List.length_eq_zero] using hav'
  refine ⟨if 1 < av.length then
      (if av.getD (r % (av.length - 1)) 0 = last then av.length - 1
        else r % (av.length - 1))
      else 0, ?_, ?_⟩
  · dsimp only
    split_ifs with h1 hc
    · omega
    · have := Nat.mod_lt r (show 0 < av.length - 1 by omega)
      omega
    · omega
  · have hidx : (if 1 < av.length then
        (if av.getD (r % (av.length - 1)) 0 = last then av.length - 1
          else r % (av.length - 1))
        else 0) < av.length := by
      split_ifs with h1 hc
      · omega
      · have := Nat.mod_lt r (show 0 < av.length - 1 by omega)
        omega
      · omega
    have hchosen_lt : av.getD (if 1 < av.length then
        (if av.getD (r % (av.length - 1)) 0 = last then av.length - 1
          else r % (av.length - 1))
        else 0) 0 < ids0.length := by
      rw [getD_get_nat av _ 0 hidx]
      exact hb' _ (List.get_mem av _ hidx)
    have hy := List.get?_eq_get hchosen_lt
    rw [get_eq_branch _ r h2']
    show (KeyIDProvider.getNRC ⟨.nonRepeatingCyclic, ids0, av, last, rd⟩ r) = _
    unfold KeyIDProvider.getNRC
    dsimp only
    simp only [if_neg hlen0]
    rw [hy]
    dsimp only
    rw [getD_get ids0 _ "" hchosen_lt]

theorem newProvider_auto_repr (ids : List String) :
    NewKeyIDProvider .auto ids =
      ⟨match ids.length with
        | 1 => .random
        | 2 | 3 | 4 | 5 => .nonRepeating
        | _ => .nonRepeatingCyclic,
        ids, List.range ids.length, 0, 0⟩ := rfl

theorem newProvider_auto_get_ok (ids : List String) (r : Nat) (hne : ids ≠ []) :
    ∃ id p', (NewKeyIDProvider .auto ids).get r = (.ok id, p') ∧ id ∈ ids := by
  have hpos : 0 < ids.length := List.length_pos.mpr hne
  have hids : (NewKeyIDProvider .auto ids).ids = ids := by
    rw [newProvider_auto_repr]
  have havail : (NewKeyIDProvider .auto ids).availableIndexes =
      List.range ids.length := by
    rw [newProvider_auto_repr]
  by_cases h1 : ids.length = 1
  · obtain ⟨x, rfl⟩ := List.length_eq_one.mp h1
    exact ⟨x, _, get_singleton _ x r (by rw [hids]), by simp⟩
  · by_cases h5 : ids.length ≤ 5
    · have h2 : 2 ≤ ids.length := by omega
      have h2' : 2 ≤ (NewKeyIDProvider .auto ids).ids.length := by
        rw [hids]; exact h2
      have hmode : (NewKeyIDProvider .auto ids).mode = .nonRepeating := by
        rw [newProvider_auto_repr]
        dsimp only
        have hcase : ids.length = 2 ∨ ids.length = 3 ∨ ids.length = 4 ∨
            ids.length = 5 := by omega
        rcases hcase with h | h | h | h <;> rw [h]
      obtain ⟨j, hj, _, heq⟩ := getNR_spec (NewKeyIDProvider .auto ids) r h2'
      refine ⟨(NewKeyIDProvider .auto ids).ids.getD j "",
        { NewKeyIDProvider .auto ids with lastSelectedIndex := j }, ?_, ?_⟩
      · rw [get_eq_branch _ r h2', hmode]
        exact heq
      · rw [hids] at hj ⊢
        rw [getD_get _ _ _ hj]
        exact List.get_mem _ _ _
    · have h2 : 2 ≤ ids.length := by omega
      have h2' : 2 ≤ (NewKeyIDProvider .auto ids).ids.length := by
        rw [hids]; exact h2
      have hmode : (NewKeyIDProvider .auto ids).mode = .nonRepeatingCyclic := by
        rw [newProvider_auto_repr]
        dsimp only
        obtain ⟨m, hm⟩ : ∃ m, ids.length = m + 6 := ⟨ids.length - 6, by omega⟩
        rw [hm]
        rfl
      obtain ⟨idx, hidx, heq⟩ := get_nrc_step (NewKeyIDProvider .auto ids) r hmode
        h2'
        (by rw [havail]; intro hcon; rw [List.range_eq_nil] at hcon; omega)
        (by rw [havail, hids]; intro j hj; exact List.mem_range.mp hj)
      refine ⟨(NewKeyIDProvider .auto ids).ids.getD
          ((NewKeyIDProvider .auto ids).availableIndexes.getD idx 0) "",
        { NewKeyIDProvider .auto ids with
            lastSelectedIndex :=
              (NewKeyIDProvider .auto ids).availableIndexes.getD idx 0,
            availableIndexes :=
              swapRemove (NewKeyIDProvider .auto ids).availableIndexes idx },
        heq, ?_⟩
      have hchosen : (NewKeyIDProvider .auto ids).availableIndexes.getD idx 0 <
          ids.length := by
        rw [havail] at hidx ⊢
        rw [getD_get_nat _ _ _ hidx]
        exact List.mem_range.mp (List.get_mem _ _ _)
      rw [hids, getD_get _ _ _ hchosen]
      exact List.get_mem _ _ _

theorem getKey_spec (r : Rotator) (rand : Nat) (id : String)
    (p' : KeyIDProvider) (k : Key)
    (hget : r.idProvider.get rand = (.ok id, p'))
    (hstore : r.storage.get id = some k) :
    (r.getKey rand).fst = some k := by
  unfold Rotator.getKey
  rw [hget]
  dsimp only
  rw [hstore]

theorem getSeq_cons (p : KeyIDProvider) (r : Nat) (rs : List Nat) :
    p.getSeq (r :: rs) =
      ((p.get r).fst :: ((p.get r).snd.getSeq rs).fst,
        ((p.get r).snd.getSeq rs).snd) := rfl

theorem getSeq_append (p : KeyIDProvider) (xs ys : List Nat) :
    p.getSeq (xs ++ ys) =
      ((p.getSeq xs).fst ++ ((p.getSeq xs).snd.getSeq ys).fst,
        ((p.getSeq xs).snd.getSeq ys).snd) := by
  induction xs generalizing p with
  | nil => simp [KeyIDProvider.getSeq]
  | cons x xs ihx =>
    rw [List.cons_append, getSeq_cons, getSeq_cons, ihx]
    simp

theorem getSeq_singleton (p : KeyIDProvider) (x : String) (h : p.ids = [x]) :
    ∀ rs : List Nat, p.getSeq rs = (rs.map (fun _ => GetResult.ok x), p)
  | [] => by simp [KeyIDProvider.getSeq]
  | r :: rs => by
    rw [getSeq_cons, get_singleton p x r h]
    dsimp only
    rw [getSeq_singleton p x h rs]
    simp

theorem get_reload (p : KeyIDProvider) (r : Nat)
    (hm : p.mode = .nonRepeatingCyclic) (h2 : 2 ≤ p.ids.length)
    (hav : p.availableIndexes = []) :
    p.get r = ({ p with availableIndexes := List.range p.ids.length }).get r := by
  obtain ⟨m, ids0, av, last, rd⟩ := p
  obtain rfl : m = KeyProvidingMode.nonRepeatingCyclic := hm
  obtain rfl : av = ([] : List Nat) := hav
  have h2' : 2 ≤ ids0.length := h2
  rw [get_eq_branch _ r h2', get_eq_branch _ r h2']
  show KeyIDProvider.getNRC _ r = KeyIDProvider.getNRC _ r
  unfold KeyIDProvider.getNRC
  dsimp only
  rw [if_pos (show ([] : List Nat).length = 0 from rfl),
    if_neg (show ¬ (List.range ids0.length).length = 0 by
      rw [List.length_range]; omega)]
  have hAlen : (List.range ids0.length).length = ids0.length := by simp
  have hidx : (if 1 < (List.range ids0.length).length then
      (if (List.range ids0.length).getD
          (r % ((List.range ids0.length).length - 1)) 0 = last then
        (List.range ids0.length).length - 1
      else r % ((List.range ids0.length).length - 1))
      else 0) < (List.range ids0.length).length := by
    split_ifs with ha hc
    · omega
    · have := Nat.mod_lt r (show 0 < (List.range ids0.length).length - 1 by omega)
      omega
    · omega
  have hchosen_lt : (List.range ids0.length).getD
      (if 1 < (List.range ids0.length).length then
        (if (List.range ids0.length).getD
            (r % ((List.range ids0.length).length - 1)) 0 = last then
          (List.range ids0.length).length - 1
        else r % ((List.range ids0.length).length - 1))
        else 0) 0 < ids0.length := by
    rw [getD_get_nat _ _ _ hidx]
    exact List.mem_range.mp (List.get_mem _ _ _)
  rw [List.get?_eq_get hchosen_lt]

theorem nrc_consume :
    ∀ (rs : List Nat) (p : KeyIDProvider),
      p.mode = .nonRepeatingCyclic → 2 ≤ p.ids.length →
      (∀ j ∈ p.availableIndexes, j < p.ids.length) →
      rs.length = p.availableIndexes.length →
      ∃ sel : List Nat, sel.Perm p.availableIndexes ∧
        (p.getSeq rs).fst = sel.map (fun j => GetResult.ok (p.ids.getD j "")) ∧
        (p.getSeq rs).snd.mode = p.mode ∧
        (p.getSeq rs).snd.ids = p.ids ∧
        (p.getSeq rs).snd.availableIndexes = [] := by
  intro rs
  induction rs with
  | nil =>
    intro p hm h2 hb hlen
    have hav : p.availableIndexes = [] :=
      List.length_eq_zero.mp (by simpa using hlen.symm)
    exact ⟨[], by rw [hav], rfl, rfl, rfl, hav⟩
  | cons r rs ih =>
    intro p hm h2 hb hlen
    have hav_ne : p.availableIndexes ≠ [] := by
      intro h
      rw [h] at hlen
      simp at hlen
    obtain ⟨index, hidx, hstep⟩ := get_nrc_step p r hm h2 hav_ne hb
    have hperm := perm_swapRemove index p.availableIndexes hidx
    have hm1 : ({ p with
        lastSelectedIndex := p.availableIndexes.getD index 0,
        availableIndexes := swapRemove p.availableIndexes index }
          : KeyIDProvider).mode = .nonRepeatingCyclic := hm
    have h21 : 2 ≤ ({ p with
        lastSelectedIndex := p.availableIndexes.getD index 0,
        availableIndexes := swapRemove p.availableIndexes index }
          : KeyIDProvider).ids.length := h2
    have hb1 : ∀ j ∈ ({ p with
        lastSelectedIndex := p.availableIndexes.getD index 0,
        availableIndexes := swapRemove p.availableIndexes index }
          : KeyIDProvider).availableIndexes,
        j < ({ p with
          lastSelectedIndex := p.availableIndexes.getD index 0,
          availableIndexes := swapRemove p.availableIndexes index }
            : KeyIDProvider).ids.length := by
      intro j hj
      exact hb j (hperm.mem_iff.mpr (List.mem_cons_of_mem _ hj))
    have hlen1 : rs.length = ({ p with
        lastSelectedIndex := p.availableIndexes.getD index 0,
        availableIndexes := swapRemove p.availableIndexes index }
          : KeyIDProvider).availableIndexes.length := by
      show rs.length = (swapRemove p.availableIndexes index).length
      rw [swapRemove_length _ _ hav_ne]
      have hl : (r :: rs).length = p.availableIndexes.length := hlen
      simp at hl
      omega
    obtain ⟨sel, hselp, hout, hm2, hids2, hempty2⟩ := ih _ hm1 h21 hb1 hlen1
    refine ⟨p.availableIndexes.getD index 0 :: sel, ?_, ?_, ?_, ?_, ?_⟩
    · exact ((hselp.cons (p.availableIndexes.getD index 0)).trans hperm.symm)
    · rw [getSeq_cons, hstep]
      dsimp only
      have hout' : (({ p with
          lastSelectedIndex := p.availableIndexes.getD index 0,
          availableIndexes := swapRemove p.availableIndexes index }
            : KeyIDProvider).getSeq rs).fst =
          sel.map (fun j => GetResult.ok (p.ids.getD j "")) := hout
      rw [hout', List.map_cons]
    · rw [getSeq_cons, hstep]
      dsimp only
      exact hm2
    · rw [getSeq_cons, hstep]
      dsimp only
      exact hids2
    · rw [getSeq_cons, hstep]
      dsimp only
      exact hempty2

theorem nrc_one_block_range (rs : List Nat) (p : KeyIDProvider)
    (hm : p.mode = .nonRepeatingCyclic) (h2 : 2 ≤ p.ids.length)
    (hav : p.availableIndexes = List.range p.ids.length)
    (hrs : rs.length = p.ids.length) :
    ∃ b : List String, b.Perm p.ids ∧
      (p.getSeq rs).fst = b.map GetResult.ok ∧
      (p.getSeq rs).snd.mode = p.mode ∧
      (p.getSeq rs).snd.ids = p.ids ∧
      (p.getSeq rs).snd.availableIndexes = [] := by
  obtain ⟨sel, hselp, hout, hm2, hids2, hempty⟩ := nrc_consume rs p hm h2
    (by rw [hav]; intro j hj; exact List.mem_range.mp hj)
    (by rw [hav, List.length_range]; exact hrs)
  refine ⟨sel.map (fun j => p.ids.getD j ""), ?_, ?_, hm2, hids2, hempty⟩
  · have h1 : sel.Perm (List.range p.ids.length) := by
      rw [← hav]
      exact hselp
    have h3 := h1.map (fun j => p.ids.getD j "")
    rw [map_getD_range p.ids] at h3
    exact h3
  · rw [hout, List.map_map]
    rfl

theorem nrc_one_block (rs : List Nat) (p : KeyIDProvider)
    (hm : p.mode = .nonRepeatingCyclic) (h2 : 2 ≤ p.ids.length)
    (hav : p.availableIndexes = List.range p.ids.length ∨
      p.availableIndexes = [])
    (hrs : rs.length = p.ids.length) :
    ∃ b : List String, b.Perm p.ids ∧
      (p.getSeq rs).fst = b.map GetResult.ok ∧
      (p.getSeq rs).snd.mode = p.mode ∧
      (p.getSeq rs).snd.ids = p.ids ∧
      (p.getSeq rs).snd.availableIndexes = [] := by
  rcases hav with hav | hav
  · exact nrc_one_block_range rs p hm h2 hav hrs
  · have hne_rs : rs ≠ [] := by
      intro h
      rw [h] at hrs
      simp at hrs
      omega
    obtain ⟨r, rs', rfl⟩ : ∃ r rs', rs = r :: rs' := by
      cases rs with
      | nil => exact absurd rfl hne_rs
      | cons a b => exact ⟨a, b, rfl⟩
    have hswitch : p.getSeq (r :: rs') =
        ({ p with availableIndexes :=
          List.range p.ids.length }).getSeq (r :: rs') := by
      rw [getSeq_cons, getSeq_cons, ← get_reload p r hm h2 hav]
    rw [hswitch]
    obtain ⟨b, hbp, hbout, hbm, hbids, hbav⟩ := nrc_one_block_range (r :: rs')
      { p with availableIndexes := List.range p.ids.length } hm h2 rfl hrs
    exact ⟨b, hbp, hbout, hbm, hbids, hbav⟩

theorem nrc_blocks :
    ∀ (k : Nat) (rs : List Nat) (p : KeyIDProvider),
      p.mode = .nonRepeatingCyclic → 2 ≤ p.ids.length →
      (p.availableIndexes = List.range p.ids.length ∨
        p.availableIndexes = []) →
      rs.length = k * p.ids.length →
      ∃ blocks : List (List String), blocks.length = k ∧
        (∀ b ∈ blocks, b.Perm p.ids) ∧
        (p.getSeq rs).fst = (blocks.flatten).map GetResult.ok := by
  intro k
  induction k with
  | zero =>
    intro rs p _ _ _ hrs
    rw [Nat.zero_mul] at hrs
    obtain rfl : rs = [] := List.length_eq_zero.mp hrs
    exact ⟨[], rfl, by simp, rfl⟩
  | succ k ih =>
    intro rs p hm h2 hav hrs
    have hlen_ge : p.ids.length ≤ rs.length := by
      rw [hrs, Nat.succ_mul]
      omega
    have htake_len : (rs.take p.ids.length).length = p.ids.length := by
      rw [List.length_take]
      omega
    obtain ⟨b, hbp, hbout, hbm, hbids, hbav⟩ :=
      nrc_one_block (rs.take p.ids.length) p hm h2 hav htake_len
    have hdrop_len : (rs.drop p.ids.length).length =
        k * ((p.getSeq (rs.take p.ids.length)).snd).ids.length := by
      rw [List.length_drop, hbids, hrs, Nat.succ_mul]
      omega
    obtain ⟨blocks, hbl, hblp, hblout⟩ := ih (rs.drop p.ids.length)
      ((p.getSeq (rs.take p.ids.length)).snd)
      (by rw [hbm, hm]) (by rw [hbids]; exact h2) (Or.inr hbav) hdrop_len
    refine ⟨b :: blocks, by simp [hbl], ?_, ?_⟩
    · intro b1 hb1
      rcases List.mem_cons.mp hb1 with rfl | hb1
      · exact hbp
      · have := hblp b1 hb1
        rw [hbids] at this
        exact this
    · conv_lhs => rw [← List.take_append_drop p.ids.length rs]
      rw [getSeq_append]
      dsimp only
      rw [hbout, hblout]
      simp

theorem flatten_replicate_singleton (x : String) :
    ∀ k : Nat, ((List.replicate k [x]).flatten).map GetResult.ok =
      List.replicate k (GetResult.ok x)
  | 0 => rfl
  | k + 1 => by
    simp [List.replicate_succ, flatten_replicate_singleton x k]

theorem map_const_replicate (x : GetResult) :
    ∀ rs : List Nat, rs.map (fun _ => x) = List.replicate rs.length x
  | [] => rfl
  | r :: rs => by
    simp [List.replicate_succ, map_const_replicate x rs]

/-! ## Claims -/

/-- Claim C1 (code bug). The claim states that after a successful
Rotate every key persisted to Storage has a cleaner (Scheduler) entry
whose id equals the stored key ID. The code instead registers the raw
random bytes string(keyID) with the cleaner while storing the key under
fmt.Sprintf("%s:%x", r.id, keyID): at the concrete input below (one
key, byte 0x01, instance id kr#00, time 0) the stored id is kr#00:01
while the lone cleaner entry id is the raw one-byte string, so no
stored key has a matching cleaner entry and its scheduled deletion can
never remove it. -/
theorem C1_rotate_cleaner_id_mismatch :
    ((Rotator.new "kr#00" ⟨1, 100, 0, true, 0⟩).rotate 0
        [([1], "v")]).storage.map Prod.fst = ["kr#00:01"] ∧
    ((Rotator.new "kr#00" ⟨1, 100, 0, true, 0⟩).rotate 0
        [([1], "v")]).cleaner.ids = [rawString [1]] ∧
    ∀ sid ∈ ((Rotator.new "kr#00" ⟨1, 100, 0, true, 0⟩).rotate 0
        [([1], "v")]).storage.map Prod.fst,
      sid ∉ ((Rotator.new "kr#00" ⟨1, 100, 0, true, 0⟩).rotate 0
        [([1], "v")]).cleaner.ids := by
  refine ⟨by decide, by decide, by decide⟩

/-- Claim C2 (code bug). The claim states that ClearDeprecated removes
exactly the keys whose expiration has elapsed. Key.Expired is inverted
(Expires.After(now)), so at time 10 the sweep keeps the elapsed key a
(expires 5) and removes the fresh key b (expires 20) — the exact
opposite, contradicting the package's own storage test. -/
theorem C2_clearDeprecated_inverted :
    Storage.clearDeprecated [("a", ⟨"a", "v", 5⟩), ("b", ⟨"b", "w", 20⟩)] 10 =
      [("a", ⟨"a", "v", 5⟩)] ∧
    Storage.get
      (Storage.clearDeprecated [("a", ⟨"a", "v", 5⟩), ("b", ⟨"b", "w", 20⟩)] 10)
      "a" = some ⟨"a", "v", 5⟩ ∧
    Storage.get
      (Storage.clearDeprecated [("a", ⟨"a", "v", 5⟩), ("b", ⟨"b", "w", 20⟩)] 10)
      "b" = none := by
  refine ⟨rfl, rfl, rfl⟩

/-- Claim C3, counterexample. The cleaner queue is processed in append
(FIFO) order, not expiration order: adding (a, 1000) then (b, 5), both
in the future at time 0, makes the worker sleep until 1000, delete a,
and only then delete b — the logged expirations 1000, 5 are not
nondecreasing and b is removed 995 time units after its expiration. -/
theorem C3_fifo_counterexample :
    (cleanerRun 0
        (cleanerAdd (cleanerAdd ⟨[], []⟩
            [("a", ⟨"a", "va", 1000⟩), ("b", ⟨"b", "vb", 5⟩)] 0 "a" 1000).fst
          (cleanerAdd ⟨[], []⟩
            [("a", ⟨"a", "va", 1000⟩), ("b", ⟨"b", "vb", 5⟩)] 0 "a" 1000).snd
          0 "b" 5).fst.ids
        (cleanerAdd (cleanerAdd ⟨[], []⟩
            [("a", ⟨"a", "va", 1000⟩), ("b", ⟨"b", "vb", 5⟩)] 0 "a" 1000).fst
          (cleanerAdd ⟨[], []⟩
            [("a", ⟨"a", "va", 1000⟩), ("b", ⟨"b", "vb", 5⟩)] 0 "a" 1000).snd
          0 "b" 5).fst.expirations
        (cleanerAdd (cleanerAdd ⟨[], []⟩
            [("a", ⟨"a", "va", 1000⟩), ("b", ⟨"b", "vb", 5⟩)] 0 "a" 1000).fst
          (cleanerAdd ⟨[], []⟩
            [("a", ⟨"a", "va", 1000⟩), ("b", ⟨"b", "vb", 5⟩)] 0 "a" 1000).snd
          0 "b" 5).snd).fst
      = [("a", 1000, 1000), ("b", 5, 1000)] ∧
    ¬ List.Sorted (· ≤ ·)
        ((cleanerRun 0 ["a", "b"] [1000, 5] []).fst.map (fun e => e.snd.fst)) ∧
    ∃ e ∈ (cleanerRun 0 ["a", "b"] [1000, 5] []).fst,
      e.snd.fst + 900 < e.snd.snd := by
  refine ⟨rfl, ?_, ?_⟩
  · decide
  · decide

/-- Claim C3 (corrected). When the entries sit in the queue in
nondecreasing expiration order — which is how the Rotator produces them
— the worker deletes them in nondecreasing expiration order and each
deletion fires exactly at its entry's expiration; the FIFO queue gives
no such guarantee for out-of-order adds (see the counterexample). -/
theorem C3_expiration_order_for_sorted_queue (now : Int) (ids : List String)
    (exps : List Int) (st : Storage)
    (hsorted : List.Sorted (· ≤ ·) exps) (hfuture : ∀ e ∈ exps, now ≤ e) :
    List.Sorted (· ≤ ·)
        ((cleanerRun now ids exps st).fst.map (fun e => e.snd.fst)) ∧
    ∀ e ∈ (cleanerRun now ids exps st).fst, e.snd.snd = e.snd.fst := by
  constructor
  · rw [cleanerRun_log_exps]
    exact List.Pairwise.sublist (List.take_sublist _ _) hsorted
  · exact cleanerRun_fire_eq ids exps now st hsorted hfuture

/-- Claim C3, witness: a sorted two-entry queue. -/
theorem C3_expiration_order_witness :
    List.Sorted (· ≤ ·)
        ((cleanerRun 0 ["a", "b"] [5, 10] []).fst.map (fun e => e.snd.fst)) ∧
    ∀ e ∈ (cleanerRun 0 ["a", "b"] [5, 10] []).fst, e.snd.snd = e.snd.fst :=
  C3_expiration_order_for_sorted_queue 0 ["a", "b"] [5, 10] []
    (by decide) (by decide)

/-- Claim C4, counterexample. Validation accepts RotationInterval = 0
and KeyExpiration = 0; with those settings a successful Start at time 0
stores a key whose Expires is 0 + 0 + 0 = 0, and GetKey returns it —
its Expires equals the current instant, which is not strictly in the
future. -/
theorem C4_zero_durations_counterexample :
    RotatorSettings.validate ⟨1, 0, 0, true, 0⟩ = none ∧
    ((Rotator.new "kr#00" ⟨1, 0, 0, true, 0⟩).start 0 [([1], "v")]).fst =
      none ∧
    ((((Rotator.new "kr#00" ⟨1, 0, 0, true, 0⟩).start 0
        [([1], "v")]).snd).getKey 0).fst = some ⟨"kr#00:01", "v", 0⟩ ∧
    ¬ ((0 : Int) < (⟨"kr#00:01", "v", 0⟩ : Key).expires) := by
  exact ⟨by decide, by decide, by decide, by decide⟩

/-- Claim C4 (corrected). For any settings accepted by validation whose
RotationInterval + KeyExpiration is strictly positive, after a
successful Start at time now (with one random byte string and one
nonempty generated value per key), GetKey succeeds and the returned
key's Expires (now + RotationInterval + KeyExpiration) is strictly
later than now; with both durations zero the Expires equals the Start
instant (see the counterexample). -/
theorem C4_start_getKey_future (rid : String) (s : RotatorSettings) (now : Int)
    (inputs : List (List Nat × String)) (rand : Nat)
    (hv : s.validate = none)
    (hpos : 0 < s.rotationInterval + s.keyExpiration)
    (hlen : inputs.length = s.rotationKeyCount.toNat)
    (hvals : ∀ inp ∈ inputs, inp.snd ≠ "") :
    ((Rotator.new rid s).start now inputs).fst = none ∧
    ∃ k : Key,
      (((Rotator.new rid s).start now inputs).snd.getKey rand).fst = some k ∧
      now < k.expires := by
  obtain ⟨hcount, hI, hE⟩ := validate_facts s hv
  have hstart : (Rotator.new rid s).start now inputs =
      (none, { (Rotator.new rid s).rotate now inputs with status := .started }) := by
    unfold Rotator.start
    rw [if_neg (show ¬ (Rotator.new rid s).status = .started by
      intro h; exact absurd h (by simp [Rotator.new]))]
  refine ⟨by rw [hstart], ?_⟩
  rw [hstart]
  have hbatch : inputs.take s.rotationKeyCount.toNat = inputs := by
    rw [← hlen]
    exact List.take_length inputs
  have hprov : ((Rotator.new rid s).rotate now inputs).idProvider =
      NewKeyIDProvider .auto
        ((batchKeys rid (now + s.rotationInterval + s.keyExpiration)
          inputs).map Key.id) := by
    show NewKeyIDProvider .auto
        ((batchKeys rid (now + s.rotationInterval + s.keyExpiration)
          (inputs.take s.rotationKeyCount.toNat)).map Key.id) = _
    rw [hbatch]
  have hinputs_ne : inputs ≠ [] := by
    intro h
    rw [h] at hlen
    simp at hlen
    omega
  have hids_ne : ((batchKeys rid (now + s.rotationInterval + s.keyExpiration)
      inputs).map Key.id) ≠ [] := by
    simp [batchKeys]
    exact hinputs_ne
  obtain ⟨id, p', hget, hidmem⟩ :=
    newProvider_auto_get_ok _ rand hids_ne
  have hvalid : ∀ k ∈ batchKeys rid (now + s.rotationInterval + s.keyExpiration)
      inputs, k.id ≠ "" ∧ k.value ≠ "" := by
    intro k hk
    obtain ⟨inp, hinp, rfl⟩ := List.mem_map.mp hk
    exact ⟨append_colon_ne_empty rid (hexString inp.fst), hvals inp hinp⟩
  rw [← hbatch] at hidmem hvalid
  obtain ⟨k, hk_mem, hk_get⟩ := get_add_mem
    ((inputs.take s.rotationKeyCount.toNat).foldl
      (fun acc inp => cleanerAdd acc.fst acc.snd now (rawString inp.fst)
        (now + s.rotationInterval + s.keyExpiration))
      ((Rotator.new rid s).cleaner, (Rotator.new rid s).storage)).snd
    (batchKeys rid (now + s.rotationInterval + s.keyExpiration)
      (inputs.take s.rotationKeyCount.toNat))
    id hidmem hvalid
  have hkexp : k.expires = now + s.rotationInterval + s.keyExpiration := by
    obtain ⟨inp, hinp, rfl⟩ := List.mem_map.mp hk_mem
    rfl
  refine ⟨k, ?_, by omega⟩
  refine getKey_spec _ rand id p' k ?_ ?_
  · show ((Rotator.new rid s).rotate now inputs).idProvider.get rand = _
    rw [hprov]
    exact hget
  · show ((Rotator.new rid s).rotate now inputs).storage.get id = some k
    show (Storage.add
      ((inputs.take s.rotationKeyCount.toNat).foldl
        (fun acc inp => cleanerAdd acc.fst acc.snd now (rawString inp.fst)
          (now + s.rotationInterval + s.keyExpiration))
        ((Rotator.new rid s).cleaner, (Rotator.new rid s).storage)).snd
      (batchKeys rid (now + s.rotationInterval + s.keyExpiration)
        (inputs.take s.rotationKeyCount.toNat))).get id = some k
    exact hk_get

/-- Claim C4, witness: count 1, KeyExpiration 1, RotationInterval 0. -/
theorem C4_start_getKey_future_witness :
    ((Rotator.new "kr#w" ⟨1, 1, 0, true, 0⟩).start 0 [([1], "v")]).fst = none ∧
    ∃ k : Key,
      (((Rotator.new "kr#w" ⟨1, 1, 0, true, 0⟩).start 0
        [([1], "v")]).snd.getKey 0).fst = some k ∧
      (0 : Int) < k.expires :=
  C4_start_getKey_future "kr#w" ⟨1, 1, 0, true, 0⟩ 0 [([1], "v")] 0
    (by decide) (by decide) (by decide) (by decide)

/-- Claim C5, counterexample. Registering hook 1 and then hook 2 via
BeforeRotation yields the execution order 2, 1 — the reverse of
registration order, because BeforeRotation prepends. -/
theorem C5_beforeRotation_counterexample :
    RotatorHooks.run
        (((Rotator.new "kr#h" ⟨1, 0, 0, true, 0⟩).beforeRotation
            [1]).beforeRotation [2]).hooksBeforeRotation = [2, 1] ∧
    RotatorHooks.run
        (((Rotator.new "kr#h" ⟨1, 0, 0, true, 0⟩).beforeRotation
            [1]).beforeRotation [2]).hooksBeforeRotation ≠ [1, 2] := by
  refine ⟨rfl, ?_⟩
  decide

/-- Claim C5 (corrected). For any initial rotator and any sequence of
registration batches, OnStart, OnStop and AfterRotation hooks execute
in registration order (the batches flattened in order after the
pre-existing hooks), while BeforeRotation hooks execute in reverse
registration order (the most recently registered batch first, in front
of the pre-existing hooks). -/
theorem C5_hook_execution_order (r : Rotator) (bs : List (List Nat)) :
    RotatorHooks.run (bs.foldl Rotator.onStart r).onStartHooks =
        r.onStartHooks ++ bs.flatten ∧
    RotatorHooks.run (bs.foldl Rotator.onStop r).onStopHooks =
        r.onStopHooks ++ bs.flatten ∧
    RotatorHooks.run (bs.foldl Rotator.afterRotation r).hooksAfterRotation =
        r.hooksAfterRotation ++ bs.flatten ∧
    RotatorHooks.run (bs.foldl Rotator.beforeRotation r).hooksBeforeRotation =
        bs.reverse.flatten ++ r.hooksBeforeRotation :=
  ⟨foldl_onStart_hooks bs r, foldl_onStop_hooks bs r,
    foldl_afterRotation_hooks bs r, foldl_beforeRotation_hooks bs r⟩

/-- Claim C6, counterexample. In Cyclic mode, after Set [a, b, c] and
one Get (which advances round to 1), a second Set [d, e, f] leaves
round at 1, so the first Get after that Set returns e, not the first id
d — Set does not reset the round position. -/
theorem C6_set_counterexample :
    (((NewKeyIDProvider .cyclic ["a", "b", "c"]).get 0).snd.set
        ["d", "e", "f"]).round = 1 ∧
    ((((NewKeyIDProvider .cyclic ["a", "b", "c"]).get 0).snd.set
        ["d", "e", "f"]).get 0).fst = GetResult.ok "e" ∧
    ((((NewKeyIDProvider .cyclic ["a", "b", "c"]).get 0).snd.set
        ["d", "e", "f"]).get 0).fst ≠ GetResult.ok "d" := by
  refine ⟨rfl, rfl, ?_⟩
  decide

/-- Claim C6 (corrected). Set replaces the id list and rebuilds the
without-replacement pool, but preserves the round position and the
last-selected index; consequently, in Cyclic mode the first Get after a
Set returns the id at the preserved round position (when it is within
the new list), not necessarily the first id. -/
theorem C6_set_behavior (p : KeyIDProvider) (ids : List String) :
    (p.set ids).ids = ids ∧
    (p.set ids).availableIndexes = List.range ids.length ∧
    (p.set ids).round = p.round ∧
    (p.set ids).lastSelectedIndex = p.lastSelectedIndex ∧
    (p.mode = .cyclic → p.round < ids.length → ∀ r : Nat,
      ((p.set ids).get r).fst = GetResult.ok (ids.getD p.round "")) := by
  refine ⟨?_, ?_, ?_, ?_, ?_⟩
  · cases hp : p.mode <;> simp [KeyIDProvider.set, hp]
  · cases hp : p.mode <;> simp [KeyIDProvider.set, hp]
  · cases hp : p.mode <;> simp [KeyIDProvider.set, hp]
  · cases hp : p.mode <;> simp [KeyIDProvider.set, hp]
  · intro hm hr r
    have hset : p.set ids =
        { p with ids := ids, availableIndexes := List.range ids.length } := by
      simp [KeyIDProvider.set, hm]
    rw [hset]
    by_cases h1 : ids.length = 1
    · have hr0 : p.round = 0 := by omega
      unfold KeyIDProvider.get
      simp [h1, hr0]
    · have h2 : 2 ≤ ids.length := by omega
      have hrne : ¬ p.round = ids.length := by omega
      unfold KeyIDProvider.get KeyIDProvider.getCyclic
      simp [hm, hrne, List.getElem?_eq_getElem hr, List.getD_eq_getElem?_getD,
        show ¬ ids.length = 0 by omega, h1]

/-- Claim C6, witness: a concrete Cyclic provider mid-round. -/
theorem C6_set_behavior_witness :
    (((NewKeyIDProvider .cyclic ["a", "b"]).set ["c", "d"]).ids = ["c", "d"] ∧
      ((NewKeyIDProvider .cyclic ["a", "b"]).set ["c", "d"]).availableIndexes =
        List.range 2) ∧
    (((NewKeyIDProvider .cyclic ["a", "b"]).set ["c", "d"]).get 7).fst =
      GetResult.ok "c" := by
  have h := C6_set_behavior (NewKeyIDProvider .cyclic ["a", "b"]) ["c", "d"]
  exact ⟨⟨h.1, h.2.1⟩, h.2.2.2.2 (by decide) (by decide) 7⟩

/-- Claim C7 (confirmed). For a provider in NonRepeatingCyclic mode
whose set of n distinct ids was installed by Set, any sequence of k*n
Get calls (for any draws of the randomness) splits into k consecutive
blocks of n results, each block a permutation of the id set: every id
is returned exactly once per block, i.e. once before any repeat, refill
boundaries apart. -/
theorem C7_nonRepeatingCyclic_blocks (ids : List String) (k : Nat)
    (rs : List Nat) (hnd : ids.Nodup) (hne : ids ≠ [])
    (hrs : rs.length = k * ids.length) :
    ∃ blocks : List (List String), blocks.length = k ∧
      (∀ b ∈ blocks, b.Perm ids) ∧
      ((NewKeyIDProvider .nonRepeatingCyclic ids).getSeq rs).fst =
        (blocks.flatten).map GetResult.ok := by
  by_cases h1 : ids.length = 1
  · obtain ⟨x, rfl⟩ := List.length_eq_one.mp h1
    have hseq := getSeq_singleton (NewKeyIDProvider .nonRepeatingCyclic [x]) x
      rfl rs
    refine ⟨List.replicate k [x], by simp, ?_, ?_⟩
    · intro b hb
      rw [List.eq_of_mem_replicate hb]
    · rw [hseq]
      dsimp only
      rw [map_const_replicate, flatten_replicate_singleton]
      rw [hrs]
      simp
  · have h2 : 2 ≤ ids.length := by
      have := List.length_pos.mpr hne
      omega
    obtain ⟨blocks, hbl, hblp, hblout⟩ := nrc_blocks k rs
      (NewKeyIDProvider .nonRepeatingCyclic ids) rfl h2 (Or.inl rfl) hrs
    exact ⟨blocks, hbl, hblp, hblout⟩

/-- Claim C7, witness: two ids, two blocks of two draws. -/
theorem C7_nonRepeatingCyclic_blocks_witness :
    ∃ blocks : List (List String), blocks.length = 2 ∧
      (∀ b ∈ blocks, b.Perm ["a", "b"]) ∧
      ((NewKeyIDProvider .nonRepeatingCyclic ["a", "b"]).getSeq
        [0, 0, 0, 0]).fst = (blocks.flatten).map GetResult.ok :=
  C7_nonRepeatingCyclic_blocks ["a", "b"] 2 [0, 0, 0, 0]
    (by decide) (by decide) (by decide)

/-- Claim C8 (confirmed). In NonRepeating mode with at least two
distinct ids, two consecutive Get calls return different ids (the
excluded-predecessor index shift makes the chosen index differ from the
stored last-selected index); and a provider whose active set is a
single id always returns that id, in any mode. -/
theorem C8_nonRepeating_behavior :
    (∀ (p : KeyIDProvider) (r1 r2 : Nat), p.mode = .nonRepeating →
      p.ids.Nodup → 2 ≤ p.ids.length →
      ∃ a b p1 p2, p.get r1 = (.ok a, p1) ∧ p1.get r2 = (.ok b, p2) ∧ a ≠ b) ∧
    (∀ (p : KeyIDProvider) (x : String) (r : Nat), p.ids = [x] →
      (p.get r).fst = GetResult.ok x) := by
  constructor
  · rintro ⟨m, ids0, av, last, rd⟩ r1 r2 hm hnd h2
    obtain rfl : m = KeyProvidingMode.nonRepeating := hm
    have h2' : 2 ≤ ids0.length := h2
    have hnd' : ids0.Nodup := hnd
    obtain ⟨j1, hj1, _, heq1⟩ :=
      getNR_spec ⟨.nonRepeating, ids0, av, last, rd⟩ r1 h2'
    have hget1 : (⟨.nonRepeating, ids0, av, last, rd⟩ : KeyIDProvider).get r1 =
        (.ok (ids0.getD j1 ""), ⟨.nonRepeating, ids0, av, j1, rd⟩) := by
      rw [get_eq_branch _ r1 h2']
      exact heq1
    obtain ⟨j2, hj2, hne2, heq2⟩ :=
      getNR_spec ⟨.nonRepeating, ids0, av, j1, rd⟩ r2 h2'
    have hget2 : (⟨.nonRepeating, ids0, av, j1, rd⟩ : KeyIDProvider).get r2 =
        (.ok (ids0.getD j2 ""), ⟨.nonRepeating, ids0, av, j2, rd⟩) := by
      rw [get_eq_branch _ r2 h2']
      exact heq2
    refine ⟨_, _, _, _, hget1, hget2, ?_⟩
    have hne : j2 ≠ j1 := hne2
    have hj1' : j1 < ids0.length := hj1
    have hj2' : j2 < ids0.length := hj2
    intro heq
    rw [getD_get ids0 j1 "" hj1', getD_get ids0 j2 "" hj2'] at heq
    exact hne (congrArg Fin.val (hnd'.get_inj_iff.mp heq)).symm
  · intro p x r h
    rw [get_singleton p x r h]

/-- Claim C8, witness: a concrete NonRepeating provider with two ids,
and a concrete singleton provider. -/
theorem C8_nonRepeating_witness :
    (∃ a b p1 p2, (NewKeyIDProvider .nonRepeating ["a", "b"]).get 0 =
        (.ok a, p1) ∧ p1.get 1 = (.ok b, p2) ∧ a ≠ b) ∧
    ((NewKeyIDProvider .auto ["z"]).get 5).fst = GetResult.ok "z" :=
  ⟨C8_nonRepeating_behavior.1 (NewKeyIDProvider .nonRepeating ["a", "b"]) 0 1
      (by decide) (by decide) (by decide),
    C8_nonRepeating_behavior.2 (NewKeyIDProvider .auto ["z"]) "z" 5 (by decide)⟩

/-- Claim C9 (confirmed). Start on an already started rotator returns
ErrRotatorAlreadyRunning and leaves the rotator completely unchanged —
the status check precedes every side effect. -/
theorem C9_start_already_running (r : Rotator) (now : Int)
    (inputs : List (List Nat × String)) (h : r.status = .started) :
    r.start now inputs = (some KrotError.rotatorAlreadyRunning, r) := by
  simp [Rotator.start, h]

/-- Claim C9, witness: a concrete started rotator. -/
theorem C9_start_already_running_witness :
    ({ Rotator.new "kr#w" ⟨1, 0, 0, true, 0⟩ with
        status := .started } : Rotator).start 0 [] =
      (some KrotError.rotatorAlreadyRunning,
        { Rotator.new "kr#w" ⟨1, 0, 0, true, 0⟩ with status := .started }) :=
  C9_start_already_running _ 0 [] rfl

/-- Claim C10 (code bug). The claim states Get never reads out of
bounds. In Cyclic mode, Set [a, b, c], three Gets (round reaches 3),
then Set [d, e] (round kept at 3, which differs from the new length 2)
makes the next Get evaluate ids[3] on a two-element slice: a Go runtime
panic, modelled as the panicked result. -/
theorem C10_cyclic_get_out_of_range :
    (((((((NewKeyIDProvider .cyclic ["a", "b", "c"]).get 0).snd.get
        0).snd.get 0).snd.set ["d", "e"]).get 0)).fst = GetResult.panicked := by
  rfl

end Krot
